import Mathlib

/-!
Verification development for the tracer runtime core of the
`opentelemetry-auto-instr-python` repository: the token-bucket rate limiter,
the rate-limited logger (`oteltrace/internal/logger.py`), the context-manager
strategies (`oteltrace/internal/context_manager.py`) and the environment
configuration lookup (`oteltrace/utils/formats.py`).

Timestamps and token counts are modelled as rationals (Python floats carry
exact decimal values in all scenarios of interest, and the algorithms use
only field operations and comparisons, so ℚ is a faithful carrier).
Python `int()` truncation toward zero is modelled explicitly.
-/

namespace OtelTrace

/-- Python `int(q)` for a real-valued expression: truncation toward zero
(floor for non-negative arguments, ceiling for negative ones). -/
def pyInt (q : ℚ) : ℤ :=
  if 0 ≤ q then ⌊q⌋ else ⌈q⌉

/-! ## Token-bucket RateLimiter

Modelled from the spec: the class `ddtrace.internal.rate_limiter.RateLimiter`
is exercised by `src/tests/internal/test_rate_limiter.py` but its module is
not among the provided sources; the state and the `is_allowed` algorithm
below follow spec §3 ("RateLimiter state") and §4.1 word for word:
tokens start at `rate_limit` (= `max_tokens`); each admission check computes
`elapsed = now - last_update`, adds `elapsed × rate_limit` tokens clamped to
`max_tokens`, sets `last_update = now`, then consumes one token when at least
one is available; `rate_limit == 0` always denies, `rate_limit < 0` always
admits without touching the bucket.  The current time is passed explicitly
(the Python code reads `time.time()`, which the tests mock). -/
structure RateLimiter where
  rate_limit : ℤ
  tokens : ℚ
  max_tokens : ℚ
  last_update : ℚ
  deriving DecidableEq, Repr

namespace RateLimiter

/-- Modelled from the spec: `RateLimiter(rate_limit)` constructed at time
`now`: `tokens = max_tokens = rate_limit`, `last_update` is the construction
time. -/
def init (rate_limit : ℤ) (now : ℚ) : RateLimiter :=
  { rate_limit := rate_limit
    tokens := rate_limit
    max_tokens := rate_limit
    last_update := now }

/-- Modelled from the spec: one admission check at time `now`, returning the
decision together with the updated limiter state (spec §4.1). -/
def is_allowed (now : ℚ) (s : RateLimiter) : Bool × RateLimiter :=
  if s.rate_limit = 0 then
    (false, s)
  else if s.rate_limit < 0 then
    (true, s)
  else
    let elapsed := now - s.last_update
    let replenished := min s.max_tokens (s.tokens + elapsed * (s.rate_limit : ℚ))
    let s' := { s with tokens := replenished, last_update := now }
    if 1 ≤ s'.tokens then
      (true, { s' with tokens := s'.tokens - 1 })
    else
      (false, s')

/-- Run a sequence of admission checks at the given times, collecting the
decisions in order together with the final state. -/
def run (s : RateLimiter) : List ℚ → List Bool × RateLimiter
  | [] => ([], s)
  | t :: ts =>
    let step := is_allowed t s
    let rest := run step.2 ts
    (step.1 :: rest.1, rest.2)

theorem run_nil (s : RateLimiter) : run s [] = ([], s) := rfl

theorem run_cons (s : RateLimiter) (t : ℚ) (ts : List ℚ) :
    run s (t :: ts) =
      ((is_allowed t s).1 :: (run (is_allowed t s).2 ts).1,
        (run (is_allowed t s).2 ts).2) := rfl

theorem run_append (s : RateLimiter) (xs ys : List ℚ) :
    run s (xs ++ ys) =
      ((run s xs).1 ++ (run (run s xs).2 ys).1, (run (run s xs).2 ys).2) := by
  induction xs generalizing s with
  | nil => simp [run]
  | cons t ts ih => simp [run, ih]

/-- Unfolding of `is_allowed` in the `rate_limit > 0` branch. -/
theorem is_allowed_pos (s : RateLimiter) (now : ℚ) (h : 0 < s.rate_limit) :
    is_allowed now s =
      (if 1 ≤ min s.max_tokens (s.tokens + (now - s.last_update) * (s.rate_limit : ℚ))
       then (true,
         { s with
             tokens :=
               min s.max_tokens (s.tokens + (now - s.last_update) * (s.rate_limit : ℚ)) - 1
             last_update := now })
       else (false,
         { s with
             tokens := min s.max_tokens (s.tokens + (now - s.last_update) * (s.rate_limit : ℚ))
             last_update := now })) := by
  have h0 : ¬ s.rate_limit = 0 := h.ne'
  have h1 : ¬ s.rate_limit < 0 := not_lt.mpr h.le
  simp only [is_allowed, h0, h1, if_false]

/-- Running `m` admission checks at the very instant `t = last_update` of a
state holding an integral number `j ≤ max_tokens` of tokens admits the first
`min m j` calls, denies the rest, and leaves `j - m` (truncated) tokens. -/
theorem run_same_time (m : ℕ) :
    ∀ (j : ℕ) (rl : ℤ) (maxT t : ℚ), 0 < rl → (j : ℚ) ≤ maxT →
      run ⟨rl, (j : ℚ), maxT, t⟩ (List.replicate m t) =
        (List.replicate (min m j) true ++ List.replicate (m - j) false,
          ⟨rl, ((j - m : ℕ) : ℚ), maxT, t⟩) := by
  induction m with
  | zero =>
    intro j rl maxT t _ _
    simp [run]
  | succ m ih =>
    intro j rl maxT t hpos hmax
    rw [List.replicate_succ, run_cons, is_allowed_pos _ t hpos]
    dsimp only
    rw [sub_self, zero_mul, add_zero, min_eq_right hmax]
    cases j with
    | zero =>
      rw [if_neg (by norm_num : ¬ (1 : ℚ) ≤ ((0 : ℕ) : ℚ))]
      dsimp only
      rw [ih 0 rl maxT t hpos hmax]
      simp [List.replicate_succ]
    | succ j =>
      rw [if_pos (by exact_mod_cast Nat.succ_le_succ (Nat.zero_le j))]
      dsimp only
      have htok : ((j + 1 : ℕ) : ℚ) - 1 = (j : ℚ) := by push_cast; ring
      have hmax' : (j : ℚ) ≤ maxT :=
        le_trans (by exact_mod_cast Nat.le_succ j) hmax
      rw [htok, ih j rl maxT t hpos hmax']
      simp [Nat.succ_min_succ, Nat.succ_sub_succ, List.replicate_succ]

/-- `rate_limit = 0`: an admission check denies and leaves the state alone. -/
theorem is_allowed_zero (s : RateLimiter) (now : ℚ) (h : s.rate_limit = 0) :
    is_allowed now s = (false, s) := by
  simp [is_allowed, h]

/-- `rate_limit < 0`: an admission check admits and leaves the state alone. -/
theorem is_allowed_neg (s : RateLimiter) (now : ℚ) (h : s.rate_limit < 0) :
    is_allowed now s = (true, s) := by
  simp [is_allowed, h.ne, h]

/-- With `rate_limit = 0` every check of a run denies, whatever the times. -/
theorem run_zero_rate (ts : List ℚ) :
    ∀ s : RateLimiter, s.rate_limit = 0 →
      run s ts = (List.replicate ts.length false, s) := by
  induction ts with
  | nil => intro s _; simp [run]
  | cons t ts ih =>
    intro s h
    rw [run_cons, is_allowed_zero s t h]
    simp [ih s h, List.replicate_succ]

/-- With `rate_limit < 0` every check of a run admits, whatever the times. -/
theorem run_neg_rate (ts : List ℚ) :
    ∀ s : RateLimiter, s.rate_limit < 0 →
      run s ts = (List.replicate ts.length true, s) := by
  induction ts with
  | nil => intro s _; simp [run]
  | cons t ts ih =>
    intro s h
    rw [run_cons, is_allowed_neg s t h]
    simp [ih s h, List.replicate_succ]

/-- Steady state: from a bucket holding `rate_limit - 1` tokens whose clock
reads `t`, checks at `t + 1/rl, t + 2/rl, …` are all admitted — each gap
refills exactly the one token the previous check consumed. -/
theorem steady_run (n : ℕ) :
    ∀ (rl : ℤ) (t : ℚ), 0 < rl →
      (run ⟨rl, (rl : ℚ) - 1, (rl : ℚ), t⟩
          ((List.range n).map (fun k : ℕ => t + ((k : ℚ) + 1) / (rl : ℚ)))).1 =
        List.replicate n true := by
  induction n with
  | zero => intro rl t _; simp [run]
  | succ n ih =>
    intro rl t hpos
    have hrl0 : ((rl : ℚ)) ≠ 0 := by exact_mod_cast hpos.ne'
    have h1 : (1 : ℚ) ≤ (rl : ℚ) := by exact_mod_cast (by omega : (1 : ℤ) ≤ rl)
    rw [List.range_succ_eq_map, List.map_cons, run_cons, is_allowed_pos _ _ hpos]
    dsimp only
    have hfill : (rl : ℚ) - 1 + (t + (((0 : ℕ) : ℚ) + 1) / (rl : ℚ) - t) * (rl : ℚ)
        = (rl : ℚ) := by
      push_cast
      field_simp
      ring
    rw [hfill, min_self, if_pos h1]
    dsimp only
    have h0 : t + (((0 : ℕ) : ℚ) + 1) / (rl : ℚ) = t + 1 / (rl : ℚ) := by norm_num
    have hfun : (fun k : ℕ => t + ((k : ℚ) + 1) / (rl : ℚ)) ∘ Nat.succ
        = fun k : ℕ => t + 1 / (rl : ℚ) + ((k : ℚ) + 1) / (rl : ℚ) := by
      funext k
      simp only [Function.comp_apply]
      push_cast
      ring
    rw [List.map_map, hfun, h0, ih rl (t + 1 / (rl : ℚ)) hpos]
    simp [List.replicate_succ]

end RateLimiter

section RateLimiterClaims

open RateLimiter

/-- C1, counterexample to the rolling-window reading: a fresh limiter with
`rate_limit = 2` constructed at time 0 admits calls at times 0, 0 and 1/2 —
all three inside the rolling 1-second window `[0, 1)` — so the
`(rate_limit+1)`-th call inside one rolling window is admitted (continuous
refill added one token during the half-second gap), not denied. -/
theorem c1_rolling_window_refuted :
    (run (init 2 0) [0, 0, 1/2]).1 = [true, true, true] := by
  norm_num [run, is_allowed, init, min_def]

/-- C1 (amended): a fresh `RateLimiter` with `rate_limit > 0` starts with
`tokens = max_tokens = rate_limit`, and of calls made with no time elapsed
since construction (so no refill occurs between them) the first `rate_limit`
are admitted and every further one is denied. -/
theorem c1_fresh_limiter_burst (rl : ℤ) (t0 : ℚ) (m : ℕ) (hpos : 0 < rl) :
    (init rl t0).tokens = (rl : ℚ) ∧ (init rl t0).max_tokens = (rl : ℚ) ∧
    (run (init rl t0) (List.replicate m t0)).1 =
      List.replicate (min m rl.toNat) true ++ List.replicate (m - rl.toNat) false := by
  refine ⟨rfl, rfl, ?_⟩
  have hcast : ((rl.toNat : ℕ) : ℚ) = (rl : ℚ) := by
    exact_mod_cast Int.toNat_of_nonneg hpos.le
  have hstate : init rl t0 = ⟨rl, ((rl.toNat : ℕ) : ℚ), (rl : ℚ), t0⟩ := by
    simp [init, hcast]
  rw [hstate, run_same_time m rl.toNat rl (rl : ℚ) t0 hpos (le_of_eq hcast)]

/-- C1 witness: `rate_limit = 3`, five same-instant calls. -/
theorem c1_fresh_limiter_burst_witness :
    (init 3 0).tokens = ((3 : ℤ) : ℚ) ∧ (init 3 0).max_tokens = ((3 : ℤ) : ℚ) ∧
    (run (init 3 0) (List.replicate 5 0)).1 =
      List.replicate (min 5 (3 : ℤ).toNat) true ++
        List.replicate (5 - (3 : ℤ).toNat) false := by
  exact c1_fresh_limiter_burst 3 0 5 (by norm_num)

/-- C2: after any admission check on a positive-rate limiter the token count
is clamped to at most `max_tokens`; concretely, a rate-100 limiter that
consumed its 100 tokens and then idled 100 seconds admits exactly 100
further calls, the 101-st being denied. -/
theorem c2_refill_clamped (s : RateLimiter) (now : ℚ) (h : 0 < s.rate_limit) :
    ((is_allowed now s).2).tokens ≤ s.max_tokens ∧
    ((run (init 100 0) (List.replicate 100 0)).1 = List.replicate 100 true ∧
      (run (run (init 100 0) (List.replicate 100 0)).2
          (List.replicate 101 100)).1 =
        List.replicate 100 true ++ [false]) := by
  constructor
  · rw [is_allowed_pos s now h]
    by_cases hc :
      1 ≤ min s.max_tokens (s.tokens + (now - s.last_update) * (s.rate_limit : ℚ))
    · rw [if_pos hc]
      exact le_trans (sub_le_self _ zero_le_one) (min_le_left _ _)
    · rw [if_neg hc]
      exact min_le_left _ _
  · have h1 : init 100 0 = ⟨100, ((100 : ℕ) : ℚ), (100 : ℚ), 0⟩ := by
      simp [init]
    have e1 := run_same_time 100 100 100 (100 : ℚ) 0 (by norm_num) (by norm_num)
    rw [h1, e1]
    constructor
    · norm_num
    · have h101 : (101 : ℕ) = 100 + 1 := by norm_num
      rw [h101, List.replicate_succ, run_cons,
        is_allowed_pos _ _ (by norm_num : (0 : ℤ) < (100 : ℤ))]
      have hfill :
          min (100 : ℚ) (((100 - 100 : ℕ) : ℚ) + ((100 : ℚ) - 0) * ((100 : ℤ) : ℚ))
            = (100 : ℚ) := by norm_num [min_def]
      dsimp only
      rw [hfill, if_pos (by norm_num : (1 : ℚ) ≤ (100 : ℚ))]
      have hstate :
          (⟨100, (100 : ℚ) - 1, (100 : ℚ), 100⟩ : RateLimiter)
            = ⟨100, ((99 : ℕ) : ℚ), (100 : ℚ), 100⟩ := by
        simp
        norm_num
      dsimp only
      rw [hstate, run_same_time 100 99 100 (100 : ℚ) 100 (by norm_num) (by norm_num)]
      norm_num [List.replicate_succ]

/-- C2 witness: a concrete clamped check (`rate_limit = 2`, check at
time 7). -/
theorem c2_refill_clamped_witness :
    ((is_allowed 7 (init 2 0)).2).tokens ≤ (init 2 0).max_tokens ∧
    ((run (init 100 0) (List.replicate 100 0)).1 = List.replicate 100 true ∧
      (run (run (init 100 0) (List.replicate 100 0)).2
          (List.replicate 101 100)).1 =
        List.replicate 100 true ++ [false]) := by
  exact c2_refill_clamped (init 2 0) 7 (by norm_num [init])

/-- C3: calls spaced exactly `1/rate_limit` seconds apart, starting at the
construction instant, are all admitted — the gap refills exactly the token
each admitted call consumes. -/
theorem c3_steady_state (rl : ℤ) (t0 : ℚ) (n : ℕ) (hpos : 0 < rl) :
    (run (init rl t0) ((List.range n).map (fun k : ℕ => t0 + (k : ℚ) / (rl : ℚ)))).1 =
      List.replicate n true := by
  cases n with
  | zero => simp [run]
  | succ n =>
    have hrl0 : ((rl : ℚ)) ≠ 0 := by exact_mod_cast hpos.ne'
    have h1 : (1 : ℚ) ≤ (rl : ℚ) := by exact_mod_cast (by omega : (1 : ℤ) ≤ rl)
    rw [show init rl t0 = ⟨rl, (rl : ℚ), (rl : ℚ), t0⟩ from rfl,
      List.range_succ_eq_map, List.map_cons, run_cons, is_allowed_pos _ _ hpos]
    dsimp only
    have hfill : (rl : ℚ) + (t0 + ((0 : ℕ) : ℚ) / (rl : ℚ) - t0) * (rl : ℚ)
        = (rl : ℚ) := by
      push_cast
      field_simp
    rw [hfill, min_self, if_pos h1]
    dsimp only
    have h0 : t0 + ((0 : ℕ) : ℚ) / (rl : ℚ) = t0 := by norm_num
    have hfun : (fun k : ℕ => t0 + (k : ℚ) / (rl : ℚ)) ∘ Nat.succ
        = fun k : ℕ => t0 + ((k : ℚ) + 1) / (rl : ℚ) := by
      funext k
      simp only [Function.comp_apply]
      push_cast
      ring
    rw [h0, List.map_map, hfun, steady_run n rl t0 hpos]
    simp [List.replicate_succ]

/-- C3 witness: `rate_limit = 2`, three calls half a second apart. -/
theorem c3_steady_state_witness :
    (run (init 2 0) ((List.range 3).map (fun k : ℕ => (0 : ℚ) + (k : ℚ) / ((2 : ℤ) : ℚ)))).1 =
      List.replicate 3 true := by
  exact c3_steady_state 2 0 3 (by norm_num)

/-- C4: a limiter constructed with `rate_limit = 0` starts with zero tokens
and denies every call, whatever the call times. -/
theorem c4_zero_rate_denies (t0 : ℚ) (ts : List ℚ) :
    (init 0 t0).tokens = 0 ∧ (init 0 t0).max_tokens = 0 ∧
    (run (init 0 t0) ts).1 = List.replicate ts.length false := by
  refine ⟨by norm_num [init], by norm_num [init], ?_⟩
  rw [run_zero_rate ts (init 0 t0) rfl]

/-- C5: a limiter constructed with `rate_limit < 0` mirrors the negative
value in `tokens` and `max_tokens` and admits every call without ever
touching its state. -/
theorem c5_negative_rate_admits (rl : ℤ) (t0 : ℚ) (ts : List ℚ) (hneg : rl < 0) :
    (init rl t0).tokens = (rl : ℚ) ∧ (init rl t0).max_tokens = (rl : ℚ) ∧
    run (init rl t0) ts = (List.replicate ts.length true, init rl t0) := by
  exact ⟨rfl, rfl, run_neg_rate ts (init rl t0) hneg⟩

/-- C5 witness: `rate_limit = -1`, three calls at arbitrary times. -/
theorem c5_negative_rate_admits_witness :
    (init (-1) 0).tokens = ((-1 : ℤ) : ℚ) ∧ (init (-1) 0).max_tokens = ((-1 : ℤ) : ℚ) ∧
    run (init (-1) 0) [0, 5, 1000] =
      (List.replicate ([0, 5, 1000] : List ℚ).length true, init (-1) 0) := by
  exact c5_negative_rate_admits (-1) 0 [0, 5, 1000] (by norm_num)

end RateLimiterClaims

/-! ## Rate-limited logger (`oteltrace/internal/logger.py`)

`OtelLogger.handle` keeps, per key `(record.name, record.levelno,
record.pathname, record.lineno)`, the last time bucket in which a record was
handled and the number of records skipped since (`self.buckets`, a
defaultdict whose default is `LoggingBucket(0, 0)`).  With
`rate_limit = int(get_env('logging', 'rate_limit', default=60))` non-zero, a
record whose bucket `int(record.created / rate_limit)` equals the stored one
is suppressed (the skip counter is bumped); otherwise it is handled, with
`', {skipped} additional messages skipped'` appended to its message when
skips accumulated, and the key's entry reset to `(current_bucket, 0)`.
`rate_limit = 0` disables rate limiting entirely.  The embedding returns the
record passed on to the base `logging.Logger.handle` (or `none` when the
record is suppressed) together with the updated bucket table. -/

/-- The fields of a `logging.LogRecord` that `OtelLogger.handle` reads. -/
structure LogRecord where
  name : String
  levelno : ℤ
  pathname : String
  lineno : ℤ
  created : ℚ
  msg : String
  deriving DecidableEq, Repr

/-- `OtelLogger.LoggingBucket`: a log line's current time bucket and the
number of log lines skipped. -/
structure LoggingBucket where
  bucket : ℤ
  skipped : ℕ
  deriving DecidableEq, Repr

/-- The rate-limiting key: `(record.name, record.levelno, record.pathname,
record.lineno)`. -/
abbrev LogKey : Type := String × ℤ × String × ℤ

namespace OtelLogger

def recordKey (r : LogRecord) : LogKey :=
  (r.name, r.levelno, r.pathname, r.lineno)

/-- The record's time bucket, `int(record.created / self.rate_limit)`. -/
def bucketOf (rate_limit : ℤ) (r : LogRecord) : ℤ :=
  pyInt (r.created / (rate_limit : ℚ))

/-- The fresh `defaultdict`: every key starts at `LoggingBucket(0, 0)`. -/
def initBuckets : LogKey → LoggingBucket := fun _ => ⟨0, 0⟩

/-- `OtelLogger.handle(record)`: the updated bucket table and the record the
base handler receives (`none` when the record is rate limited away). -/
def handle (rate_limit : ℤ) (buckets : LogKey → LoggingBucket) (r : LogRecord) :
    (LogKey → LoggingBucket) × Option LogRecord :=
  if rate_limit = 0 then
    (buckets, some r)
  else
    let current_bucket := bucketOf rate_limit r
    let key := recordKey r
    let logging_bucket := buckets key
    if logging_bucket.bucket ≠ current_bucket then
      let r' :=
        if logging_bucket.skipped ≠ 0 then
          { r with
              msg := r.msg ++ ", " ++ toString logging_bucket.skipped ++
                " additional messages skipped" }
        else r
      (fun k => if k = key then ⟨current_bucket, 0⟩ else buckets k, some r')
    else
      (fun k => if k = key then ⟨logging_bucket.bucket, logging_bucket.skipped + 1⟩
        else buckets k, none)

/-- Feed a list of records through `handle`, collecting per record what the
base handler received (`none` = suppressed). -/
def handleRun (rate_limit : ℤ) (buckets : LogKey → LoggingBucket) :
    List LogRecord → (LogKey → LoggingBucket) × List (Option LogRecord)
  | [] => (buckets, [])
  | r :: rs =>
    let step := handle rate_limit buckets r
    let rest := handleRun rate_limit step.1 rs
    (rest.1, step.2 :: rest.2)

theorem handleRun_nil (rate_limit : ℤ) (buckets : LogKey → LoggingBucket) :
    handleRun rate_limit buckets [] = (buckets, []) := rfl

theorem handleRun_cons (rate_limit : ℤ) (buckets : LogKey → LoggingBucket)
    (r : LogRecord) (rs : List LogRecord) :
    handleRun rate_limit buckets (r :: rs) =
      ((handleRun rate_limit (handle rate_limit buckets r).1 rs).1,
        (handle rate_limit buckets r).2 ::
          (handleRun rate_limit (handle rate_limit buckets r).1 rs).2) := rfl

/-- `handle` in the same-bucket branch: suppress and bump the skip count. -/
theorem handle_same_bucket (rate_limit : ℤ) (buckets : LogKey → LoggingBucket)
    (r : LogRecord) (hrl : rate_limit ≠ 0)
    (h : (buckets (recordKey r)).bucket = bucketOf rate_limit r) :
    handle rate_limit buckets r =
      (fun k => if k = recordKey r then
          ⟨(buckets (recordKey r)).bucket, (buckets (recordKey r)).skipped + 1⟩
        else buckets k, none) := by
  simp only [handle, if_neg hrl, h, ne_eq, not_true_eq_false, if_false, ite_not]

/-- `handle` in the changed-bucket branch: handle the record (suffixing the
skip count when records were skipped) and reset the key's entry. -/
theorem handle_new_bucket (rate_limit : ℤ) (buckets : LogKey → LoggingBucket)
    (r : LogRecord) (hrl : rate_limit ≠ 0)
    (h : (buckets (recordKey r)).bucket ≠ bucketOf rate_limit r) :
    handle rate_limit buckets r =
      (fun k => if k = recordKey r then ⟨bucketOf rate_limit r, 0⟩ else buckets k,
        some (if (buckets (recordKey r)).skipped ≠ 0 then
          { r with
              msg := r.msg ++ ", " ++ toString (buckets (recordKey r)).skipped ++
                " additional messages skipped" }
        else r)) := by
  simp only [handle, if_neg hrl, ne_eq, h, not_false_eq_true, if_true]

/-- `handle` touches the bucket table only at the record's own key. -/
theorem handle_fst_apply_ne (rate_limit : ℤ) (buckets : LogKey → LoggingBucket)
    (r : LogRecord) (k : LogKey) (hk : k ≠ recordKey r) :
    (handle rate_limit buckets r).1 k = buckets k := by
  by_cases hrl : rate_limit = 0
  · simp [handle, hrl]
  · by_cases h : (buckets (recordKey r)).bucket = bucketOf rate_limit r
    · rw [handle_same_bucket rate_limit buckets r hrl h]
      simp [hk]
    · rw [handle_new_bucket rate_limit buckets r hrl h]
      simp [hk]

/-- With rate limiting on, a record is handled exactly when its time bucket
differs from the one stored for its key. -/
theorem handle_isSome (rate_limit : ℤ) (buckets : LogKey → LoggingBucket)
    (r : LogRecord) (hrl : rate_limit ≠ 0) :
    (handle rate_limit buckets r).2.isSome
      ↔ (buckets (recordKey r)).bucket ≠ bucketOf rate_limit r := by
  by_cases h : (buckets (recordKey r)).bucket = bucketOf rate_limit r
  · rw [handle_same_bucket rate_limit buckets r hrl h]
    simp [h]
  · rw [handle_new_bucket rate_limit buckets r hrl h]
    simp [h]

/-- How many of the records with key `k` and time bucket `b` get handled
along a run started from `buckets`. -/
def handledCount (rate_limit : ℤ) (buckets : LogKey → LoggingBucket)
    (k : LogKey) (b : ℤ) : List LogRecord → ℕ
  | [] => 0
  | r :: rs =>
    let step := handle rate_limit buckets r
    (if recordKey r = k ∧ bucketOf rate_limit r = b ∧ step.2.isSome then 1 else 0) +
      handledCount rate_limit step.1 k b rs

/-- No record of the list has key `k` and bucket `b`: nothing is counted. -/
theorem handledCount_eq_zero_of_absent (rate_limit : ℤ) (k : LogKey) (b : ℤ) :
    ∀ (rs : List LogRecord) (buckets : LogKey → LoggingBucket),
      (∀ r ∈ rs, recordKey r = k → bucketOf rate_limit r ≠ b) →
      handledCount rate_limit buckets k b rs = 0 := by
  intro rs
  induction rs with
  | nil => intro buckets _; rfl
  | cons r rs ih =>
    intro buckets habs
    have hr : ¬ (recordKey r = k ∧ bucketOf rate_limit r = b ∧
        (handle rate_limit buckets r).2.isSome) := by
      rintro ⟨hk, hb, -⟩
      exact habs r (List.mem_cons_self r rs) hk hb
    simp only [handledCount, if_neg hr, zero_add]
    exact ih _ fun x hx => habs x (List.mem_cons_of_mem r hx)

/-- Python `int()` truncation is monotone on non-negative rationals. -/
theorem pyInt_mono_nonneg {a c : ℚ} (ha : 0 ≤ a) (hac : a ≤ c) :
    pyInt a ≤ pyInt c := by
  have hc : 0 ≤ c := le_trans ha hac
  simp only [pyInt, if_pos ha, if_pos hc]
  exact Int.floor_le_floor hac

/-- With a positive rate and non-negative timestamps, time buckets follow
timestamp order. -/
theorem bucketOf_mono (rate_limit : ℤ) (hpos : 0 < rate_limit)
    {a c : LogRecord} (ha : 0 ≤ a.created) (h : a.created ≤ c.created) :
    bucketOf rate_limit a ≤ bucketOf rate_limit c := by
  have hrl : (0 : ℚ) < (rate_limit : ℚ) := by exact_mod_cast hpos
  exact pyInt_mono_nonneg (div_nonneg ha hrl.le) ((div_le_div_iff_of_pos_right hrl).mpr h)

/-- Once the stored bucket for key `k` is `b`, no later record with key `k`
and bucket `b` is handled, provided buckets never decrease along the run and
key-`k` records never fall below bucket `b`. -/
theorem handledCount_eq_zero_of_stored (rate_limit : ℤ) (hrl : rate_limit ≠ 0)
    (k : LogKey) (b : ℤ) :
    ∀ (rs : List LogRecord) (buckets : LogKey → LoggingBucket),
      (buckets k).bucket = b →
      rs.Pairwise (fun x y => bucketOf rate_limit x ≤ bucketOf rate_limit y) →
      (∀ r ∈ rs, recordKey r = k → b ≤ bucketOf rate_limit r) →
      handledCount rate_limit buckets k b rs = 0 := by
  intro rs
  induction rs with
  | nil => intro buckets _ _ _; rfl
  | cons r rs ih =>
    intro buckets hstored hpair hge
    by_cases hk : recordKey r = k
    · by_cases hb : bucketOf rate_limit r = b
      · -- same bucket as stored: suppressed, stored entry keeps bucket `b`
        have hsame : (buckets (recordKey r)).bucket = bucketOf rate_limit r := by
          rw [hk, hstored, hb]
        have hcond : ¬ (recordKey r = k ∧ bucketOf rate_limit r = b ∧
            (handle rate_limit buckets r).2.isSome) := by
          rintro ⟨-, -, hs⟩
          exact (handle_isSome rate_limit buckets r hrl).mp hs hsame
        simp only [handledCount, if_neg hcond, zero_add]
        rw [handle_same_bucket rate_limit buckets r hrl hsame]
        refine ih _ ?_ hpair.of_cons fun x hx => hge x (List.mem_cons_of_mem r hx)
        simp [hk, hstored]
      · -- a strictly later bucket: afterwards no key-`k` record sits in `b`
        have hcond : ¬ (recordKey r = k ∧ bucketOf rate_limit r = b ∧
            (handle rate_limit buckets r).2.isSome) := by
          rintro ⟨-, hb', -⟩
          exact hb hb'
        simp only [handledCount, if_neg hcond, zero_add]
        have hlt : b < bucketOf rate_limit r :=
          lt_of_le_of_ne (hge r (List.mem_cons_self r rs) hk) (Ne.symm hb)
        refine handledCount_eq_zero_of_absent rate_limit k b rs _ fun y hy _ => ?_
        have hry : bucketOf rate_limit r ≤ bucketOf rate_limit y :=
          (List.pairwise_cons.mp hpair).1 y hy
        intro hyb
        omega
    · -- a different key: the entry for `k` is untouched
      have hcond : ¬ (recordKey r = k ∧ bucketOf rate_limit r = b ∧
          (handle rate_limit buckets r).2.isSome) := by
        rintro ⟨hk', -, -⟩
        exact hk hk'
      simp only [handledCount, if_neg hcond, zero_add]
      refine ih _ ?_ hpair.of_cons fun x hx => hge x (List.mem_cons_of_mem r hx)
      rw [handle_fst_apply_ne rate_limit buckets r k (fun h => hk h.symm)]
      exact hstored

/-- Along a bucket-monotone run, at most one record per key and time bucket
is handled, from any starting table. -/
theorem handledCount_le_one (rate_limit : ℤ) (hrl : rate_limit ≠ 0)
    (k : LogKey) (b : ℤ) :
    ∀ (rs : List LogRecord) (buckets : LogKey → LoggingBucket),
      rs.Pairwise (fun x y => bucketOf rate_limit x ≤ bucketOf rate_limit y) →
      handledCount rate_limit buckets k b rs ≤ 1 := by
  intro rs
  induction rs with
  | nil => intro buckets _; exact Nat.zero_le 1
  | cons r rs ih =>
    intro buckets hpair
    by_cases hcond : recordKey r = k ∧ bucketOf rate_limit r = b ∧
        (handle rate_limit buckets r).2.isSome
    · obtain ⟨hk, hb, hs⟩ := hcond
      have hne : (buckets (recordKey r)).bucket ≠ bucketOf rate_limit r :=
        (handle_isSome rate_limit buckets r hrl).mp hs
      have hrest : handledCount rate_limit (handle rate_limit buckets r).1 k b rs = 0 := by
        refine handledCount_eq_zero_of_stored rate_limit hrl k b rs _ ?_
          hpair.of_cons fun y hy _ => ?_
        · rw [handle_new_bucket rate_limit buckets r hrl hne]
          simp [hk, hb]
        · rw [← hb]
          exact (List.pairwise_cons.mp hpair).1 y hy
      simp only [handledCount]
      rw [hrest]
      split <;> norm_num
    · simp only [handledCount, if_neg hcond, zero_add]
      exact ih _ hpair.of_cons

end OtelLogger

section LoggerClaims

open OtelLogger

/-- C7, counterexample: the logger's admission decision is not the
token-bucket `is_allowed` check.  Two identical diagnostic records at time
100 under rate 60: the logger handles the first and suppresses the second
(same key, same time bucket), while a token-bucket `RateLimiter` of rate 60
at the same times admits both. -/
theorem c7_logger_not_token_bucket :
    ((handleRun 60 initBuckets
        [⟨"oteltrace.writer", 10, "writer.py", 137, 100, "m"⟩,
         ⟨"oteltrace.writer", 10, "writer.py", 137, 100, "m"⟩]).2.map Option.isSome
      = [true, false]) ∧
    (RateLimiter.run (RateLimiter.init 60 100) [100, 100]).1 = [true, true] := by
  constructor
  · have hbucket :
        bucketOf 60 ⟨"oteltrace.writer", 10, "writer.py", 137, 100, "m"⟩ = 1 := by
      rw [bucketOf, pyInt, if_pos (by norm_num)]
      rw [Int.floor_eq_iff]
      norm_num
    have h1 := handle_new_bucket 60 initBuckets
      ⟨"oteltrace.writer", 10, "writer.py", 137, 100, "m"⟩ (by norm_num)
      (by rw [hbucket]; simp [initBuckets])
    rw [handleRun_cons, handleRun_cons, handleRun_nil, h1]
    have h2 := handle_same_bucket 60
      (fun k => if k = recordKey ⟨"oteltrace.writer", 10, "writer.py", 137, 100, "m"⟩
        then ⟨bucketOf 60 ⟨"oteltrace.writer", 10, "writer.py", 137, 100, "m"⟩, 0⟩
        else initBuckets k)
      ⟨"oteltrace.writer", 10, "writer.py", 137, 100, "m"⟩ (by norm_num) (by simp)
    rw [h2]
    simp
  · norm_num [RateLimiter.run, RateLimiter.is_allowed, RateLimiter.init, min_def]

/-- C7 (amended): the Rate-limited Logger's decision whether to handle a
record is its own per-key time-bucket check — with rate limiting on, a
record is passed to the base handler exactly when its time bucket differs
from the one stored for its key — not the token-bucket `is_allowed`
admission check. -/
theorem c7_logger_decision_is_bucket_check (rate_limit : ℤ)
    (buckets : LogKey → LoggingBucket) (r : LogRecord) (hrl : rate_limit ≠ 0) :
    (handle rate_limit buckets r).2.isSome
      ↔ (buckets (recordKey r)).bucket ≠ bucketOf rate_limit r := by
  exact handle_isSome rate_limit buckets r hrl

/-- C7 witness: a fresh table and one concrete record under rate 60. -/
theorem c7_logger_decision_is_bucket_check_witness :
    (handle 60 initBuckets ⟨"a", 10, "p", 1, 100, "m"⟩).2.isSome
      ↔ (initBuckets (recordKey ⟨"a", 10, "p", 1, 100, "m"⟩)).bucket
          ≠ bucketOf 60 ⟨"a", 10, "p", 1, 100, "m"⟩ := by
  exact c7_logger_decision_is_bucket_check 60 initBuckets
    ⟨"a", 10, "p", 1, 100, "m"⟩ (by norm_num)

/-- C8: with `rate_limit = 0` the `OtelLogger` passes every record to the
base handler untouched and never mutates its bucket table — the opposite
convention from the `RateLimiter`, where `rate_limit = 0` denies
everything. -/
theorem c8_zero_rate_limit_disables (buckets : LogKey → LoggingBucket)
    (rs : List LogRecord) :
    handleRun 0 buckets rs = (buckets, rs.map some) ∧
    (∀ (s : RateLimiter) (now : ℚ), s.rate_limit = 0 →
      RateLimiter.is_allowed now s = (false, s)) := by
  constructor
  · induction rs with
    | nil => rfl
    | cons r rs ih =>
      have hstep : handle 0 buckets r = (buckets, some r) := by
        simp [handle]
      rw [handleRun_cons, hstep]
      simp [ih]
  · exact fun s now h => RateLimiter.is_allowed_zero s now h

/-- C9: with `rate_limit > 0` and records arriving in timestamp order, at
most one record per key is handled within each time bucket of `rate_limit`
seconds; a record suppressed in the stored bucket only bumps the key's skip
counter, and a record handled after `n > 0` skips carries the
`', n additional messages skipped'` suffix while the key's entry resets to
`(current_bucket, 0)`. -/
theorem c9_one_record_per_key_per_bucket (rate_limit : ℤ) (rs : List LogRecord)
    (k : LogKey) (b : ℤ) (hpos : 0 < rate_limit)
    (hmono : rs.Pairwise (fun x y => x.created ≤ y.created))
    (hnn : ∀ r ∈ rs, 0 ≤ r.created) :
    handledCount rate_limit initBuckets k b rs ≤ 1 ∧
    (∀ (buckets : LogKey → LoggingBucket) (r : LogRecord),
      (buckets (recordKey r)).bucket = bucketOf rate_limit r →
        handle rate_limit buckets r =
          (fun x => if x = recordKey r then
              ⟨(buckets (recordKey r)).bucket, (buckets (recordKey r)).skipped + 1⟩
            else buckets x, none)) ∧
    (∀ (buckets : LogKey → LoggingBucket) (r : LogRecord),
      (buckets (recordKey r)).bucket ≠ bucketOf rate_limit r →
      (buckets (recordKey r)).skipped ≠ 0 →
        handle rate_limit buckets r =
          (fun x => if x = recordKey r then ⟨bucketOf rate_limit r, 0⟩ else buckets x,
            some { r with
                     msg := r.msg ++ ", " ++ toString (buckets (recordKey r)).skipped ++
                       " additional messages skipped" })) := by
  have hrl : rate_limit ≠ 0 := hpos.ne'
  refine ⟨?_, ?_, ?_⟩
  · refine handledCount_le_one rate_limit hrl k b rs initBuckets ?_
    exact hmono.imp_of_mem fun ha _ hr => bucketOf_mono rate_limit hpos (hnn _ ha) hr
  · exact fun buckets r h => handle_same_bucket rate_limit buckets r hrl h
  · intro buckets r h hskip
    rw [handle_new_bucket rate_limit buckets r hrl h]
    simp [hskip]

/-- C9 witness: one record at time 100 under rate 60. -/
theorem c9_one_record_per_key_per_bucket_witness :
    handledCount 60 initBuckets ("a", 10, "p", 1) 1 [⟨"a", 10, "p", 1, 100, "m"⟩] ≤ 1 ∧
    (∀ (buckets : LogKey → LoggingBucket) (r : LogRecord),
      (buckets (recordKey r)).bucket = bucketOf 60 r →
        handle 60 buckets r =
          (fun x => if x = recordKey r then
              ⟨(buckets (recordKey r)).bucket, (buckets (recordKey r)).skipped + 1⟩
            else buckets x, none)) ∧
    (∀ (buckets : LogKey → LoggingBucket) (r : LogRecord),
      (buckets (recordKey r)).bucket ≠ bucketOf 60 r →
      (buckets (recordKey r)).skipped ≠ 0 →
        handle 60 buckets r =
          (fun x => if x = recordKey r then ⟨bucketOf 60 r, 0⟩ else buckets x,
            some { r with
                     msg := r.msg ++ ", " ++ toString (buckets (recordKey r)).skipped ++
                       " additional messages skipped" })) := by
  exact c9_one_record_per_key_per_bucket 60 [⟨"a", 10, "p", 1, 100, "m"⟩]
    ("a", 10, "p", 1) 1 (by norm_num) (by simp)
    (by intro r hr; simp only [List.mem_singleton] at hr; subst hr; norm_num)

end LoggerClaims

/-! ## Context managers (`oteltrace/internal/context_manager.py`)

Both strategies keep at most one `Context` per execution unit — a
`threading.local` slot for `ThreadLocalContext`, a `ContextVar` defaulting
to `None` for `ContextVarContextManager`.  The embedding makes that
per-execution-unit slot explicit: each operation takes the slot's current
value (`none` = nothing stored) and returns the value it yields to the
caller together with the slot's new contents. -/

/-- Modelled from the spec: the `Context` class lives in `oteltrace/context.py`,
which is not among the provided sources — only its import and use sites are.
Per spec §3 a Context carries trace/span identifiers, a sampling decision and
baggage, and the lazily materialized root is `Context()` with everything
absent; a `Context` instance is an ordinary object, so the source's
`if not ctx:` test is true exactly when the slot holds no context. -/
structure Context where
  trace_id : Option ℕ
  span_id : Option ℕ
  sampling_priority : Option ℤ
  baggage : List (String × String)
  deriving DecidableEq, Repr

/-- Modelled from the spec: `Context()` — the lazily materialized root. -/
def Context.new : Context :=
  { trace_id := none, span_id := none, sampling_priority := none, baggage := [] }

namespace ThreadLocalContext

/-- `ThreadLocalContext.get`: read the thread's slot; when nothing is there,
create a new `Context`, store it and return it. -/
def get (stored : Option Context) : Option Context × Option Context :=
  match stored with
  | none => (some Context.new, some Context.new)
  | some c => (some c, some c)

/-- `ThreadLocalContext.set`: overwrite the thread's slot. -/
def set (ctx : Context) (_stored : Option Context) : Option Context :=
  some ctx

/-- `ThreadLocalContext.reset`: a fresh `threading.local()` — the slot is
empty again. -/
def reset (_stored : Option Context) : Option Context :=
  none

/-- `ThreadLocalContext._has_active_context`. -/
def _has_active_context (stored : Option Context) : Bool :=
  stored.isSome

end ThreadLocalContext

namespace ContextVarContextManager

/-- `ContextVarContextManager.get`: read the context variable; when it holds
nothing, create a new `Context`, `set` it and return it. -/
def get (stored : Option Context) : Option Context × Option Context :=
  match stored with
  | none => (some Context.new, some Context.new)
  | some c => (some c, some c)

/-- `ContextVarContextManager.set`. -/
def set (ctx : Context) (_stored : Option Context) : Option Context :=
  some ctx

/-- `ContextVarContextManager.reset`: the variable is set back to `None`. -/
def reset (_stored : Option Context) : Option Context :=
  none

/-- `ContextVarContextManager._has_active_context`. -/
def _has_active_context (stored : Option Context) : Bool :=
  stored.isSome

end ContextVarContextManager

section ContextClaims

/-- C6: under both strategies `get()` never yields an absent value — on an
empty execution unit it creates the root `Context`, stores it and returns
it — and a second `get()` with no intervening `set()`/`reset()` returns the
same stored `Context` and stores nothing new. -/
theorem c6_get_materializes_and_is_idempotent (s : Option Context) :
    (ThreadLocalContext.get s).1.isSome ∧
    (ContextVarContextManager.get s).1.isSome ∧
    ThreadLocalContext.get none = (some Context.new, some Context.new) ∧
    ContextVarContextManager.get none = (some Context.new, some Context.new) ∧
    ThreadLocalContext.get ((ThreadLocalContext.get s).2)
      = ((ThreadLocalContext.get s).1, (ThreadLocalContext.get s).2) ∧
    ContextVarContextManager.get ((ContextVarContextManager.get s).2)
      = ((ContextVarContextManager.get s).1, (ContextVarContextManager.get s).2) := by
  cases s <;>
    simp [ThreadLocalContext.get, ContextVarContextManager.get]

end ContextClaims

/-! ## Environment configuration lookup (`oteltrace/utils/formats.py`) -/

/-- Python truthiness of the value `os.getenv` returns: `None` and the empty
string are falsy, any other string is truthy. -/
def pyTruthy (v : Option String) : Bool :=
  match v with
  | none => false
  | some s => if s = "" then false else true

/-- `get_env(integration, variable, default)` over an environment `env`
(mapping a variable name to its value, `none` = unset).  The Python local
`value` is rebound by `value = value or legacy`; the rebinding is `value2`
here, and the Python parameter `variable` is `varName` (`variable` is a Lean
keyword). -/
def get_env (env : String → Option String) (integration varName : String)
    (default : Option String) : Option String :=
  let key := (integration ++ "_" ++ varName).toUpper
  let legacy_env := "OPENTELEMETRY_" ++ key
  let envName := "OTEL_" ++ key
  let value := env envName
  let legacy := env legacy_env
  let value2 := if pyTruthy value then value else legacy
  if pyTruthy value2 then value2 else default

/-- The spec's words for the lookup priority: a candidate set to a non-empty
string wins, otherwise fall through. -/
def specPick (v fallback : Option String) : Option String :=
  match v with
  | some s => if s = "" then fallback else some s
  | none => fallback

/-- The spec's words for `get_env`: the `OTEL_`-prefixed variable when set
non-empty, else the legacy `OPENTELEMETRY_`-prefixed one when set non-empty,
else the default — a variable set to the empty string counts as unset. -/
def getEnvSpec (env : String → Option String) (integration varName : String)
    (default : Option String) : Option String :=
  let key := (integration ++ "_" ++ varName).toUpper
  specPick (env ("OTEL_" ++ key)) (specPick (env ("OPENTELEMETRY_" ++ key)) default)

section FormatsClaims

/-- C10: `get_env` implements exactly the spec's priority cascade — the
`OTEL_` variable when set to a non-empty string, else the legacy
`OPENTELEMETRY_` variable when set to a non-empty string, else the supplied
default; empty-string values fall through as if unset. -/
theorem c10_get_env_priority (env : String → Option String)
    (integration varName : String) (default : Option String) :
    get_env env integration varName default
      = getEnvSpec env integration varName default := by
  rw [get_env, getEnvSpec]
  cases hv : env ("OTEL_" ++ (integration ++ "_" ++ varName).toUpper) with
  | none =>
    cases hl : env ("OPENTELEMETRY_" ++ (integration ++ "_" ++ varName).toUpper) with
    | none => simp [pyTruthy, specPick]
    | some w =>
      by_cases hw : w = "" <;>
        simp [pyTruthy, specPick, hw, String.isEmpty_iff]
  | some v =>
    by_cases hv' : v = ""
    · cases hl : env ("OPENTELEMETRY_" ++ (integration ++ "_" ++ varName).toUpper) with
      | none => simp [pyTruthy, specPick, hv']
      | some w =>
        by_cases hw : w = "" <;>
          simp [pyTruthy, specPick, hv', hw]
    · simp [pyTruthy, specPick, hv']

end FormatsClaims

end OtelTrace
